import Mathlib

/-!
Shallow embedding of the MNA time-domain circuit simulator core
(reference engine `src/legacy/codigos/MNA3.c`), covering:

* the working-matrix stamp primitives `transcondutancia`, `condutancia`,
  `fonte` (MNA3.c lines 185-199);
* the capacitor companion stamps for Backward Euler / Forward Euler and
  the trapezoidal rule (MNA3.c lines 482-504);
* the Gauss-Jordan linear solver `resolversistema` with partial pivoting
  (MNA3.c lines 127-161);
* the diode stamp `diodo` (MNA3.c lines 201-213);
* the independent-source waveforms and the I/V/H element stamps
  (MNA3.c lines 606-655);
* the Newton convergence/restart logic and the transient step-size
  schedule of `main` (MNA3.c lines 460-464, 774-821).

Machine doubles are embedded as exact rationals (or reals where the code
calls `exp`/`sin`); floating-point rounding is outside the model.
-/

/-- A working matrix as in MNA3.c: `Yn` is indexed by row and column
starting at 0; the solver only touches rows/columns `1..nv+1`. -/
abbrev Mat (α : Type) : Type := Nat → Nat → α

/-- `Y[r][c] += v`, the additive write used by all stamp helpers. -/
def addAt {α : Type} [Add α] (Y : Mat α) (r c : Nat) (v : α) : Mat α :=
  fun i j => if i = r ∧ j = c then Y i j + v else Y i j

/-- `Y[r][c] = v`, the overwriting assignment used by the V/E/F/H/O stamps. -/
def setAt {α : Type} (Y : Mat α) (r c : Nat) (v : α) : Mat α :=
  fun i j => if i = r ∧ j = c then v else Y i j

/-- `transcondutancia` (MNA3.c line 185): adds `+g` at `(a,c)` and `(b,d)`,
`-g` at `(a,d)` and `(b,c)`. -/
def transcondutancia {α : Type} [Ring α] (Y : Mat α) (a b c d : Nat) (g : α) : Mat α :=
  addAt (addAt (addAt (addAt Y a c g) b d g) a d (-g)) b c (-g)

/-- `condutancia` (MNA3.c line 193): two-terminal conductance, a shorthand
for `transcondutancia a b a b`. -/
def condutancia {α : Type} [Ring α] (Y : Mat α) (a b : Nat) (g : α) : Mat α :=
  transcondutancia Y a b a b g

/-- `fonte` (MNA3.c line 195): current injection into the RHS column
`nv+1`; row `a` decreases by `i0`, row `b` increases by `i0`. -/
def fonte {α : Type} [Ring α] (nv : Nat) (Y : Mat α) (a b : Nat) (i0 : α) : Mat α :=
  addAt (addAt Y a (nv + 1) (-i0)) b (nv + 1) i0

/-- `TOLG` (MNA3.c line 69): pivot tolerance `1e-12`. -/
def TOLG : ℚ := 1 / 10 ^ 12

/-- `TOLE` (MNA3.c line 70): Newton convergence tolerance `1e-7`. -/
def TOLE : ℚ := 1 / 10 ^ 7

/-- `inicial` (MNA3.c line 79): startup attenuation factor `0.001`. -/
def inicial : ℚ := 1 / 1000

/-- Diode thermal voltage `VT = 25e-3` (MNA3.c line 72). -/
noncomputable def VT : ℝ := 25 / 10 ^ 3

/-- Diode saturation current `IS = 3.7751345e-14` (MNA3.c line 73). -/
noncomputable def IS : ℝ := 37751345 / 10 ^ 21

/-- Trapezoidal capacitor companion-voltage update (MNA3.c lines 494-502):
the per-element scratch `p3` is rewritten only when `primeira` (first Newton
iteration of the step); at `n = 0` it becomes the declared IC `v0`, later it
becomes `v_prev + i_prev / g` where `i_prev = (2C/dta)*(v_prev - p3_old)`
and `g = 2C/dt` uses the CURRENT step size `dt` (`dta` is the previous one). -/
def capTrapP3 (Cv v0 p3 : ℚ) (n : Nat) (primeira : Bool) (dt dta va vb : ℚ) : ℚ :=
  if primeira then
    if n = 0 then v0
    else (va - vb) + (2 * Cv / dta * (va - vb - p3)) / (2 * Cv / dt)
  else p3

/-- The capacitor stamp of MNA3.c lines 482-504, dispatching on `metodo`
(1 = BE, 2 = FE, 3 = trapezoidal).  `metodo < 3` takes the Backward Euler
companion (the comment in the source reads `BE (FE nao implementado)`).
Returns the new matrix and the new companion scratch `p3`. -/
def capacitorStamp (metodo : Nat) (Cv v0 p3 : ℚ) (n : Nat) (primeira : Bool)
    (dt dta : ℚ) (et : Nat → ℚ) (a b nv : Nat) (Y : Mat ℚ) : Mat ℚ × ℚ :=
  if metodo < 3 then
    let g := Cv / dt
    let vprev := if n = 0 then v0 else et a - et b
    (fonte nv (condutancia Y a b g) b a (g * vprev), p3)
  else
    let g := 2 * Cv / dt
    let p3new := capTrapP3 Cv v0 p3 n primeira dt dta (et a) (et b)
    (fonte nv (condutancia Y a b g) b a (g * p3new), p3new)

/-- Modelled from the spec (§4.3, C / Backward Euler bullet): equivalent
conductance `g = C/Δt`, companion current source `g·v_prev` with
`v_prev = v0` at `n = 0` else the previous node-voltage difference;
stamp `cond(a,b,g)` and `isrc(b,a,g·v_prev)`.  Used as the spec-side
reference for the FE/BE refinement claim. -/
def capacitorBEspec (Cv v0 : ℚ) (n : Nat) (dt : ℚ) (et : Nat → ℚ)
    (a b nv : Nat) (Y : Mat ℚ) : Mat ℚ :=
  let g := Cv / dt
  let vprev := if n = 0 then v0 else et a - et b
  fonte nv (condutancia Y a b g) b a (g * vprev)

/-- Pivot scan accumulator loop (MNA3.c lines 134-140): runs over the row
indices in `ls`, keeping the row and value of the entry of largest absolute
value in column `col` (strict improvement, so the first maximum wins). -/
def pivotFold (Y : Mat ℚ) (col : Nat) : List Nat → Nat × ℚ → Nat × ℚ
  | [], acc => acc
  | l :: ls, acc =>
      pivotFold Y col ls (if |Y l col| > |acc.2| then (l, Y l col) else acc)

/-- Pivot selection for column `i`: scan rows `i..nv` starting from the
accumulator `(i, 0)` exactly as MNA3.c lines 133-140. -/
def pivotSearch (Y : Mat ℚ) (i nv : Nat) : Nat × ℚ :=
  pivotFold Y i (List.range' i (nv + 1 - i)) (i, 0)

/-- Row swap of MNA3.c lines 141-147: exchanges rows `i` and `a` on
columns `1..nv+1` only. -/
def swapRows (nv : Nat) (Y : Mat ℚ) (i a : Nat) : Mat ℚ :=
  fun r c =>
    if 1 ≤ c ∧ c ≤ nv + 1 then
      if r = i then Y a c else if r = a then Y i c else Y r c
    else Y r c

/-- One inner iteration of the elimination loop (MNA3.c lines 153-158) at
column `j`: `Y[i][j] /= tt`, then every row `l ∈ [1,nv]`, `l ≠ i`, gets
`Y[l][j] -= Y[l][i] * (Y[i][j]/tt)`. -/
def elimCell (nv i : Nat) (tt : ℚ) (Y : Mat ℚ) (j : Nat) : Mat ℚ :=
  fun r c =>
    if r = i ∧ c = j then Y i j / tt
    else if 1 ≤ r ∧ r ≤ nv ∧ r ≠ i ∧ c = j then Y r c - Y r i * (Y i j / tt)
    else Y r c

/-- The full elimination for pivot column `i` (MNA3.c lines 152-159):
`j` runs from `nv+1` down to `1`. -/
def elimCol (nv i : Nat) (tt : ℚ) (Y : Mat ℚ) : Mat ℚ :=
  ((List.range' 1 (nv + 1)).reverse).foldl (elimCell nv i tt) Y

/-- One pivot-column step of `resolversistema`: select the pivot, swap it
into row `i`, fail with the diagnostic payload `(t, pivot)` when
`|pivot| < TOLG` (MNA3.c lines 148-151), otherwise eliminate. -/
def gaussStep (t : ℚ) (nv : Nat) (Y : Mat ℚ) (i : Nat) : Except (ℚ × ℚ) (Mat ℚ) :=
  let a := (pivotSearch Y i nv).1
  let tt := (pivotSearch Y i nv).2
  let Y1 := if i = a then Y else swapRows nv Y i a
  if |tt| < TOLG then Except.error (t, tt) else Except.ok (elimCol nv i tt Y1)

/-- Sequential processing of the pivot columns listed in `is`. -/
def solveCols (t : ℚ) (nv : Nat) : List Nat → Mat ℚ → Except (ℚ × ℚ) (Mat ℚ)
  | [], Y => Except.ok Y
  | i :: is, Y =>
      match gaussStep t nv Y i with
      | Except.error e => Except.error e
      | Except.ok Y2 => solveCols t nv is Y2

/-- `resolversistema` (MNA3.c lines 127-161): Gauss-Jordan elimination with
partial pivoting over pivot columns `1..nv`; the error payload carries the
time `t` and the offending pivot, as printed by the C diagnostic. -/
def resolversistema (t : ℚ) (nv : Nat) (Y : Mat ℚ) : Except (ℚ × ℚ) (Mat ℚ) :=
  solveCols t nv (List.range' 1 nv) Y

/-- Total projection out of `Except`, with a default for the error case. -/
def exceptGet {ε α : Type} : Except ε α → α → α
  | Except.ok a, _ => a
  | Except.error _, d => d

/-- Convergence-loop solution copy (MNA3.c lines 782-786): `en[i]` becomes
`Yn[i][nv+1]` for `i ∈ [1,nv]`; other entries (notably `en[0]`) are untouched. -/
def newtonUpdate (nv : Nat) (Y : Mat ℚ) (en : Nat → ℚ) : Nat → ℚ :=
  fun r => if 1 ≤ r ∧ r ≤ nv then Y r (nv + 1) else en r

/-- Restart randomization (MNA3.c line 790): `en[i] = rand()/RAND_MAX*10-5`
for `i ∈ [1,nv]`; `rnd r` models the value `rand()/RAND_MAX ∈ [0,1]` drawn
for unknown `r`. -/
def randomize (nv : Nat) (rnd en : Nat → ℚ) : Nat → ℚ :=
  fun r => if 1 ≤ r ∧ r ≤ nv then rnd r * 10 - 5 else en r

/-- Step acceptance copy (MNA3.c line 813): `et[i] = en[i]` for `i ∈ [1,nv]`. -/
def etAccept (nv : Nat) (en et : Nat → ℚ) : Nat → ℚ :=
  fun r => if 1 ≤ r ∧ r ≤ nv then en r else et r

/-- The divergence check after a Newton iteration (MNA3.c lines 787-795):
if more than 20 iterations have run and at most 10 restarts were consumed,
re-seed every unknown `1..nv` randomly, count the restart and reset the
iteration counter; otherwise leave the state alone.
Result: `(iteracoes, reinicios, en)`. -/
def restartCheck (nv iter rein : Nat) (en rnd : Nat → ℚ) : Nat × Nat × (Nat → ℚ) :=
  if 20 < iter then
    if rein ≤ 10 then (0, rein + 1, randomize nv rnd en)
    else (iter, rein, en)
  else (iter, rein, en)

/-- The element kinds accepted by the netlist reader of MNA3.c. -/
inductive ElemKind : Type
  | R | Cap | Ind | Xind | K | G | Evs | F | H | Oamp | Isrc | Vsrc | D | M | Q
deriving DecidableEq

/-- The parser marks the circuit nonlinear exactly for diodes, MOSFETs and
BJTs (MNA3.c lines 324, 339, 353). -/
def isNaoLinear : ElemKind → Bool
  | ElemKind.D => true
  | ElemKind.M => true
  | ElemKind.Q => true
  | _ => false

/-- `nao_linear` flag after reading a whole netlist. -/
def naoLinearFlag (ks : List ElemKind) : Bool := ks.any isNaoLinear

/-- The do-while guard of the Newton loop (MNA3.c line 798):
`nao_linear && erro_max > TOLE`. -/
def newtonCond (naoLin : Bool) (erroMax : ℚ) : Bool :=
  naoLin && decide (erroMax > TOLE)

/-- A counting do-while: run `body` once, then repeat while `cond` holds on
the current state (bounded by `fuel`); returns the number of body executions
and the final state. -/
def doWhileCount {σ : Type} (body : σ → σ) (cond : σ → Bool) : Nat → σ → Nat × σ
  | 0, s => (1, body s)
  | fuel + 1, s =>
      let s2 := body s
      if cond s2 then
        let r := doWhileCount body cond fuel s2
        (r.1 + 1, r.2)
      else (1, s2)

/-- Transient-engine scalar state: current step `dt`, previous step `dta`,
current time `t`. -/
structure TState : Type where
  dt : ℚ
  dta : ℚ
  t : ℚ
deriving DecidableEq

/-- `dt1 = tempo/ntotal` with `ntotal = npassos*npontos` (MNA3.c 460-461). -/
def dt1calc (tempo : ℚ) (npontos npassos : Nat) : ℚ :=
  tempo / ((npassos : ℚ) * (npontos : ℚ))

/-- State before step `n = 0` (MNA3.c line 464): `t = 0`, `dt = dt1*inicial`. -/
def tInit (dt1 : ℚ) : TState := ⟨dt1 * inicial, 0, 0⟩

/-- End-of-step update (MNA3.c lines 819-821): `dta = dt; dt = dt1; t += dt`. -/
def tAdvance (dt1 : ℚ) (s : TState) : TState := ⟨dt1, s.dt, s.t + dt1⟩

/-- Step size in force at global time-step `n`. -/
def dtUsed (dt1 : ℚ) (n : Nat) : ℚ := ((tAdvance dt1)^[n] (tInit dt1)).dt

/-- `diodo` (MNA3.c lines 201-213): operating voltage seeded to `0.6` at the
first iteration of the first step, otherwise `en[a]-en[b]` clamped to `0.9`;
stamps the linearized conductance and the remainder current source. -/
noncomputable def diodo (n iter : Nat) (en : Nat → ℝ) (a b nv : Nat) (Y : Mat ℝ) : Mat ℝ :=
  let v : ℝ :=
    if n = 0 ∧ iter = 0 then 6 / 10
    else if en a - en b > 9 / 10 then 9 / 10 else en a - en b
  let ex := Real.exp (v / VT)
  let g := IS / VT * ex
  let idv := IS * (ex - 1) - g * v
  fonte nv (condutancia Y a b g) a b idv

/-- Independent-source waveform kinds, as stored in the `y` field by the
parser: `D` = DC, `S` = SIN, `P` = PULSE. -/
inductive SourceKind : Type
  | D | S | P
deriving DecidableEq

/-- Waveform evaluation shared by the I and V stamps (MNA3.c lines 607-611
and 619-623). -/
noncomputable def fonteValor (k : SourceKind) (p1 p2 p3 t : ℝ) : ℝ :=
  match k with
  | SourceKind.D => p1
  | SourceKind.S => p1 + p2 * Real.sin (2 * Real.pi * p3 * t)
  | SourceKind.P => if t < p3 then p1 else p2

/-- The I-element stamp (MNA3.c lines 606-613). -/
noncomputable def stampI (nv : Nat) (Y : Mat ℝ) (a b : Nat)
    (k : SourceKind) (p1 p2 p3 t : ℝ) : Mat ℝ :=
  fonte nv Y a b (fonteValor k p1 p2 p3 t)

/-- The V-element stamp (MNA3.c lines 614-625): ±1 couplings between node
rows and the branch-current column `x`, RHS row `x` set to the waveform. -/
noncomputable def stampV (nv : Nat) (Y : Mat ℝ) (a b x : Nat)
    (k : SourceKind) (p1 p2 p3 t : ℝ) : Mat ℝ :=
  setAt (setAt (setAt (setAt (setAt Y a x 1) b x (-1)) x a 1) x b (-1))
    x (nv + 1) (fonteValor k p1 p2 p3 t)

/-- The H-element (CCVS) stamp (MNA3.c lines 644-655): overwriting
assignments, ending with `Yn[x][y] = -Rm`. -/
def stampH (Y : Mat ℚ) (a b c d x y : Nat) (Rm : ℚ) : Mat ℚ :=
  setAt (setAt (setAt (setAt (setAt (setAt (setAt (setAt (setAt
    Y a x 1) b x (-1)) c y 1) d y (-1)) x a 1) x b (-1)) y c 1) y d (-1))
    x y (-Rm)

/-! ## Claim C1: trapezoidal capacitor companion update -/

/-- C1 counterexample: the claim says the companion voltage becomes
`v_prev + i_prev*dt_prev/(2C)`, but the code divides `i_prev` by the
CURRENT conductance `g = 2C/dt`.  With `C = 1`, current step `dt = 1`,
previous step `dta = 1/1000`, `v_prev = 1`, `v_eq_prev = 0` (the situation
at global step `n = 1` after the attenuated startup step), the code stores
`1001` while the claimed formula gives `2`. -/
theorem cap_trap_dtprev_counterexample :
    capTrapP3 1 0 0 1 true 1 (1/1000) 1 0 = 1001 ∧
    (1 : ℚ) + (2 * 1 / ((1 : ℚ)/1000) * (1 - 0 - 0)) * ((1 : ℚ)/1000) / (2 * 1) = 2 ∧
    capTrapP3 1 0 0 1 true 1 (1/1000) 1 0 ≠
      (1 : ℚ) + (2 * 1 / ((1 : ℚ)/1000) * (1 - 0 - 0)) * ((1 : ℚ)/1000) / (2 * 1) := by
  refine ⟨by norm_num [capTrapP3], by norm_num, by norm_num [capTrapP3]⟩

/-- C1 (amended): on the first Newton iteration of a step the companion
voltage becomes `v0` at `n = 0` and otherwise
`v_prev + i_prev * dt / (2C)` with the CURRENT step size `dt`
(equivalently `v_prev + i_prev/g` with `g = 2C/dt`), where
`i_prev = (2C/dt_prev) * (v_prev - v_eq_prev)`; on non-first iterations
of the same step the companion voltage is left unchanged. -/
theorem cap_trap_companion_update (Cv v0 p3 : ℚ) (n : Nat) (dt dta va vb : ℚ) :
    capTrapP3 Cv v0 p3 n true dt dta va vb =
      (if n = 0 then v0
       else (va - vb) + (2 * Cv / dta * (va - vb - p3)) * dt / (2 * Cv)) ∧
    capTrapP3 Cv v0 p3 n false dt dta va vb = p3 := by
  constructor
  · by_cases h : n = 0 <;> simp [capTrapP3, h, div_div_eq_mul_div]
  · rfl

/-! ## Claim C10: capacitor under Forward Euler uses the BE companion -/

/-- C10: selecting Forward Euler (`metodo = 2`) stamps capacitors exactly as
Backward Euler (`metodo = 1`) does, and both match the spec-side BE
companion model (`g = C/dt`, source `g*v_prev`, `v_prev = v0` at `n = 0`). -/
theorem cap_FE_eq_BE (Cv v0 p3 : ℚ) (n : Nat) (primeira : Bool) (dt dta : ℚ)
    (et : Nat → ℚ) (a b nv : Nat) (Y : Mat ℚ) :
    capacitorStamp 2 Cv v0 p3 n primeira dt dta et a b nv Y =
      capacitorStamp 1 Cv v0 p3 n primeira dt dta et a b nv Y ∧
    (capacitorStamp 2 Cv v0 p3 n primeira dt dta et a b nv Y).1 =
      capacitorBEspec Cv v0 n dt et a b nv Y :=
  ⟨rfl, rfl⟩

/-! ## Claim C3: diode stamp -/

/-- C3: the diode stamp evaluates the operating voltage as
`en[a] - en[b]` clamped to at most `0.9`, except when `n = 0` and the
iteration counter is `0` where it is seeded to `0.6`; it then stamps the
conductance `g = (IS/VT)*exp(v/VT)` between `a` and `b` and injects the
current `IS*(exp(v/VT) - 1) - g*v` from `a` to `b`. -/
theorem diodo_stamp_spec (n iter : Nat) (en : Nat → ℝ) (a b nv : Nat) (Y : Mat ℝ) :
    diodo n iter en a b nv Y =
      fonte nv
        (condutancia Y a b
          (IS / VT *
            Real.exp ((if n = 0 ∧ iter = 0 then (6 : ℝ)/10
                       else min (en a - en b) (9/10)) / VT)))
        a b
        (IS * (Real.exp ((if n = 0 ∧ iter = 0 then (6 : ℝ)/10
                          else min (en a - en b) (9/10)) / VT) - 1) -
         IS / VT *
           Real.exp ((if n = 0 ∧ iter = 0 then (6 : ℝ)/10
                      else min (en a - en b) (9/10)) / VT) *
           (if n = 0 ∧ iter = 0 then (6 : ℝ)/10 else min (en a - en b) (9/10))) := by
  have hv : (if n = 0 ∧ iter = 0 then (6 : ℝ)/10
             else if en a - en b > 9/10 then 9/10 else en a - en b)
      = (if n = 0 ∧ iter = 0 then (6 : ℝ)/10 else min (en a - en b) (9/10)) := by
    by_cases h : n = 0 ∧ iter = 0
    · simp [h]
    · simp only [if_neg h]
      by_cases h2 : en a - en b > 9/10
      · rw [if_pos h2, min_eq_right (le_of_lt h2)]
      · rw [if_neg h2, min_eq_left (le_of_not_lt h2)]
  simp only [diodo, hv]

/-! ## Claim C7: SIN waveform -/

/-- C7: the SIN waveform evaluates to `offset + amp*sin(2*pi*freq*t)`; this
is the value injected by the I-source stamp and placed in the RHS row of the
V-source stamp. -/
theorem sin_waveform_spec (nv : Nat) (Y : Mat ℝ) (a b x : Nat) (off amp freq t : ℝ) :
    fonteValor SourceKind.S off amp freq t =
      off + amp * Real.sin (2 * Real.pi * freq * t) ∧
    stampI nv Y a b SourceKind.S off amp freq t =
      fonte nv Y a b (off + amp * Real.sin (2 * Real.pi * freq * t)) ∧
    stampV nv Y a b x SourceKind.S off amp freq t x (nv + 1) =
      off + amp * Real.sin (2 * Real.pi * freq * t) := by
  refine ⟨rfl, rfl, ?_⟩
  simp [stampV, setAt, fonteValor]

/-! ## Claim C8: CCVS (H) stamp -/

/-- C8: after the H stamp the entry at `(x, y)` is `-Rm`, alongside the
±1 couplings of the output branch (nodes `a`,`b`, current `x`) and the
control branch (nodes `c`,`d`, current `y`). -/
theorem ccvs_H_stamp_spec (Y : Mat ℚ) (a b c d x y : Nat) (Rm : ℚ)
    (hab : a ≠ b) (hcd : c ≠ d) (hxy : x ≠ y)
    (hax : a ≠ x) (hay : a ≠ y) (hbx : b ≠ x) (hby : b ≠ y)
    (hcx : c ≠ x) (hcy : c ≠ y) (hdx : d ≠ x) (hdy : d ≠ y) :
    stampH Y a b c d x y Rm x y = -Rm ∧
    stampH Y a b c d x y Rm a x = 1 ∧ stampH Y a b c d x y Rm b x = -1 ∧
    stampH Y a b c d x y Rm c y = 1 ∧ stampH Y a b c d x y Rm d y = -1 ∧
    stampH Y a b c d x y Rm x a = 1 ∧ stampH Y a b c d x y Rm x b = -1 ∧
    stampH Y a b c d x y Rm y c = 1 ∧ stampH Y a b c d x y Rm y d = -1 := by
  refine ⟨?_, ?_, ?_, ?_, ?_, ?_, ?_, ?_, ?_⟩ <;>
    simp [stampH, setAt, hab, hcd, hxy, hax, hay, hbx, hby, hcx, hcy, hdx, hdy,
      Ne.symm hab, Ne.symm hcd, Ne.symm hxy, Ne.symm hax, Ne.symm hay, Ne.symm hbx,
      Ne.symm hby, Ne.symm hcx, Ne.symm hcy, Ne.symm hdx, Ne.symm hdy]

/-- C8 witness: concrete H stamp with `a,b,c,d,x,y = 1..6` and `Rm = 7`. -/
theorem ccvs_H_stamp_spec_witness :
    stampH (fun _ _ => 0) 1 2 3 4 5 6 7 5 6 = -7 ∧
    stampH (fun _ _ => 0) 1 2 3 4 5 6 7 1 5 = 1 ∧
    stampH (fun _ _ => 0) 1 2 3 4 5 6 7 2 5 = -1 ∧
    stampH (fun _ _ => 0) 1 2 3 4 5 6 7 3 6 = 1 ∧
    stampH (fun _ _ => 0) 1 2 3 4 5 6 7 4 6 = -1 ∧
    stampH (fun _ _ => 0) 1 2 3 4 5 6 7 5 1 = 1 ∧
    stampH (fun _ _ => 0) 1 2 3 4 5 6 7 5 2 = -1 ∧
    stampH (fun _ _ => 0) 1 2 3 4 5 6 7 6 3 = 1 ∧
    stampH (fun _ _ => 0) 1 2 3 4 5 6 7 6 4 = -1 :=
  ccvs_H_stamp_spec (fun _ _ => 0) 1 2 3 4 5 6 7
    (by decide) (by decide) (by decide) (by decide) (by decide) (by decide)
    (by decide) (by decide) (by decide) (by decide) (by decide)

/-! ## Claim C4: Newton restart -/

/-- C4: when the iteration count exceeds 20 and at most 10 restarts were
consumed this step, every unknown `1..nv` is re-seeded with `rnd*10-5`
(hence inside `[-5, 5]` since `rnd` models `rand()/RAND_MAX ∈ [0,1]`) and
the iteration counter resets to 0; once more than 10 restarts were consumed,
the state passes through unchanged. -/
theorem newton_restart_spec (nv iter rein : Nat) (en rnd : Nat → ℚ)
    (hr : ∀ k, 0 ≤ rnd k ∧ rnd k ≤ 1) :
    (20 < iter → rein ≤ 10 →
      (restartCheck nv iter rein en rnd).1 = 0 ∧
      (restartCheck nv iter rein en rnd).2.1 = rein + 1 ∧
      (∀ r, 1 ≤ r → r ≤ nv →
        (restartCheck nv iter rein en rnd).2.2 r = rnd r * 10 - 5 ∧
        -5 ≤ (restartCheck nv iter rein en rnd).2.2 r ∧
        (restartCheck nv iter rein en rnd).2.2 r ≤ 5)) ∧
    (10 < rein → restartCheck nv iter rein en rnd = (iter, rein, en)) := by
  constructor
  · intro h1 h2
    have hstep : restartCheck nv iter rein en rnd = (0, rein + 1, randomize nv rnd en) := by
      simp [restartCheck, h1, h2]
    refine ⟨by rw [hstep], by rw [hstep], ?_⟩
    intro r hr1 hr2
    have hb := hr r
    have hv : (restartCheck nv iter rein en rnd).2.2 r = rnd r * 10 - 5 := by
      rw [hstep]
      simp [randomize, hr1, hr2]
    refine ⟨hv, ?_, ?_⟩ <;> rw [hv]
    · linarith [hb.1]
    · linarith [hb.2]
  · intro h
    have h2 : ¬ rein ≤ 10 := by omega
    unfold restartCheck
    by_cases h1 : 20 < iter
    · rw [if_pos h1, if_neg h2]
    · rw [if_neg h1]

/-- C4 witness: `nv = 2`, 21 iterations, 0 restarts so far, `rnd = 1/2`. -/
theorem newton_restart_spec_witness :
    (20 < 21 → 0 ≤ 10 →
      (restartCheck 2 21 0 (fun _ => 0) (fun _ => 1/2)).1 = 0 ∧
      (restartCheck 2 21 0 (fun _ => 0) (fun _ => 1/2)).2.1 = 0 + 1 ∧
      (∀ r, 1 ≤ r → r ≤ 2 →
        (restartCheck 2 21 0 (fun _ => 0) (fun _ => 1/2)).2.2 r = (1:ℚ)/2 * 10 - 5 ∧
        -5 ≤ (restartCheck 2 21 0 (fun _ => 0) (fun _ => 1/2)).2.2 r ∧
        (restartCheck 2 21 0 (fun _ => 0) (fun _ => 1/2)).2.2 r ≤ 5)) ∧
    (10 < 0 → restartCheck 2 21 0 (fun _ => 0) (fun _ => 1/2) = (21, 0, fun _ => 0)) :=
  newton_restart_spec 2 21 0 (fun _ => 0) (fun _ => 1/2) (fun _ => by norm_num)

/-! ## Claim C5: linear circuits run a single Newton iteration -/

/-- C5: if the netlist contains no nonlinear element (no D, M, Q), the
do-while guard `nao_linear && erro_max > TOLE` is false, so the Newton loop
of a time step executes its body exactly once whatever the error is. -/
theorem newton_single_iteration {σ : Type} (kinds : List ElemKind)
    (h : naoLinearFlag kinds = false) (body : σ → σ) (erroOf : σ → ℚ)
    (fuel : Nat) (s : σ) :
    doWhileCount body (fun s2 => newtonCond (naoLinearFlag kinds) (erroOf s2)) fuel s
      = (1, body s) := by
  have hc : ∀ s2 : σ, newtonCond (naoLinearFlag kinds) (erroOf s2) = false := by
    intro s2
    simp [newtonCond, h]
  cases fuel with
  | zero => rfl
  | succ m => simp [doWhileCount, hc]

/-- C5 witness: an R-I-C netlist, a counting body and a large error. -/
theorem newton_single_iteration_witness :
    naoLinearFlag [ElemKind.R, ElemKind.Isrc, ElemKind.Cap] = false ∧
    doWhileCount Nat.succ
      (fun s2 => newtonCond
        (naoLinearFlag [ElemKind.R, ElemKind.Isrc, ElemKind.Cap])
        ((fun _ : Nat => (1 : ℚ)) s2)) 5 0 = (1, 1) :=
  ⟨rfl, newton_single_iteration [ElemKind.R, ElemKind.Isrc, ElemKind.Cap] rfl
    Nat.succ (fun _ => (1 : ℚ)) 5 0⟩

/-! ## Claim C6: startup step attenuation -/

/-- C6: with `dt1 = T/(S*P)`, the step used at `n = 0` is `dt1 * 10^-3`
and every later step uses `dt1`. -/
theorem transient_step_schedule (tempo : ℚ) (npontos npassos : Nat)
    (n : Nat) (hn : 1 ≤ n) :
    dtUsed (dt1calc tempo npontos npassos) 0 = dt1calc tempo npontos npassos * (1/1000) ∧
    dtUsed (dt1calc tempo npontos npassos) n = dt1calc tempo npontos npassos := by
  constructor
  · rfl
  · obtain ⟨m, rfl⟩ : ∃ m, n = m + 1 := ⟨n - 1, by omega⟩
    show ((tAdvance _)^[m + 1] (tInit _)).dt = _
    rw [Function.iterate_succ_apply']
    rfl

/-- C6 witness: `T = 1`, `P = 2`, `S = 3`, checked at steps 0 and 1. -/
theorem transient_step_schedule_witness :
    (1 : Nat) ≤ 1 ∧
    (dtUsed (dt1calc 1 2 3) 0 = dt1calc 1 2 3 * (1/1000) ∧
     dtUsed (dt1calc 1 2 3) 1 = dt1calc 1 2 3) :=
  ⟨le_refl 1, transient_step_schedule 1 2 3 1 (le_refl 1)⟩

/-! ## Solver lemmas (pivot selection, elimination, ground isolation) -/

/-- The pivot scan either keeps its accumulator or returns a scanned entry. -/
theorem pivotFold_eq_or_mem (Y : Mat ℚ) (col : Nat) :
    ∀ (ls : List Nat) (acc : Nat × ℚ),
      pivotFold Y col ls acc = acc ∨ ∃ l ∈ ls, pivotFold Y col ls acc = (l, Y l col) := by
  intro ls
  induction ls with
  | nil => intro acc; exact Or.inl rfl
  | cons l ls ih =>
      intro acc
      by_cases hc : |Y l col| > |acc.2|
      · rcases ih (l, Y l col) with h | ⟨l2, hl2, h⟩
        · refine Or.inr ⟨l, List.mem_cons_self l ls, ?_⟩
          simpa [pivotFold, hc] using h
        · refine Or.inr ⟨l2, List.mem_cons_of_mem l hl2, ?_⟩
          simpa [pivotFold, hc] using h
      · rcases ih acc with h | ⟨l2, hl2, h⟩
        · refine Or.inl ?_
          simpa [pivotFold, hc] using h
        · refine Or.inr ⟨l2, List.mem_cons_of_mem l hl2, ?_⟩
          simpa [pivotFold, hc] using h

/-- The pivot scan never decreases the absolute value of the accumulator. -/
theorem pivotFold_le (Y : Mat ℚ) (col : Nat) :
    ∀ (ls : List Nat) (acc : Nat × ℚ), |acc.2| ≤ |(pivotFold Y col ls acc).2| := by
  intro ls
  induction ls with
  | nil => intro acc; exact le_refl _
  | cons l ls ih =>
      intro acc
      by_cases hc : |Y l col| > |acc.2|
      · calc |acc.2| ≤ |Y l col| := le_of_lt hc
          _ = |((l, Y l col) : Nat × ℚ).2| := rfl
          _ ≤ _ := by simpa [pivotFold, hc] using ih (l, Y l col)
      · simpa [pivotFold, hc] using ih acc

/-- Every scanned entry is bounded by the final accumulator value. -/
theorem pivotFold_bound (Y : Mat ℚ) (col : Nat) :
    ∀ (ls : List Nat) (acc : Nat × ℚ) (l : Nat), l ∈ ls →
      |Y l col| ≤ |(pivotFold Y col ls acc).2| := by
  intro ls
  induction ls with
  | nil => intro acc l hl; cases hl
  | cons hd tl ih =>
      intro acc l hl
      rcases List.mem_cons.mp hl with rfl | hmem
      · by_cases hc : |Y l col| > |acc.2|
        · calc |Y l col| = |((l, Y l col) : Nat × ℚ).2| := rfl
            _ ≤ _ := by simpa [pivotFold, hc] using pivotFold_le Y col tl (l, Y l col)
        · calc |Y l col| ≤ |acc.2| := le_of_not_lt hc
            _ ≤ _ := by simpa [pivotFold, hc] using pivotFold_le Y col tl acc
      · by_cases hc : |Y hd col| > |acc.2|
        · simpa [pivotFold, hc] using ih (hd, Y hd col) l hmem
        · simpa [pivotFold, hc] using ih acc l hmem

/-- Pivot selection is a genuine argmax over rows `i..nv` of column `i`:
the selected row is in range, the stored value is the matrix entry there,
and it dominates every candidate in absolute value. -/
theorem pivotSearch_spec (Y : Mat ℚ) (i nv : Nat) (h2 : i ≤ nv) (a : Nat) (tt : ℚ)
    (hp : pivotSearch Y i nv = (a, tt)) :
    i ≤ a ∧ a ≤ nv ∧ tt = Y a i ∧ ∀ l, i ≤ l → l ≤ nv → |Y l i| ≤ |tt| := by
  simp only [pivotSearch] at hp
  have hmem : ∀ l, l ∈ List.range' i (nv + 1 - i) ↔ i ≤ l ∧ l ≤ nv := by
    intro l
    rw [List.mem_range'_1]
    omega
  have hbound : ∀ l, i ≤ l → l ≤ nv → |Y l i| ≤ |tt| := by
    intro l hl1 hl2
    have hb := pivotFold_bound Y i (List.range' i (nv + 1 - i)) (i, 0) l
      ((hmem l).mpr ⟨hl1, hl2⟩)
    rw [hp] at hb
    exact hb
  rcases pivotFold_eq_or_mem Y i (List.range' i (nv + 1 - i)) (i, 0) with heq | ⟨l, hl, heq⟩
  · rw [heq] at hp
    injection hp with hpa hpt
    subst hpa
    subst hpt
    refine ⟨le_refl _, h2, ?_, hbound⟩
    have hz := hbound i (le_refl i) h2
    simp only [abs_zero] at hz
    exact (abs_nonpos_iff.mp hz).symm
  · rw [heq] at hp
    injection hp with hpa hpt
    subst hpa
    subst hpt
    have hm := (hmem l).mp hl
    exact ⟨hm.1, hm.2, rfl, hbound⟩

/-- After the (guarded) swap, row `i` holds the selected pivot row on the
swapped columns `1..nv+1`. -/
theorem swap_target (nv : Nat) (Y : Mat ℚ) (i a c : Nat)
    (hc1 : 1 ≤ c) (hc2 : c ≤ nv + 1) :
    (if i = a then Y else swapRows nv Y i a) i c = Y a c := by
  by_cases h : i = a
  · rw [if_pos h, h]
  · rw [if_neg h]
    simp [swapRows, hc1, hc2]

/-- `elimCell` at column `j` does not touch any other column. -/
theorem elimCell_ne_col (nv i : Nat) (tt : ℚ) (Y : Mat ℚ) (j r c : Nat) (hc : c ≠ j) :
    elimCell nv i tt Y j r c = Y r c := by
  simp [elimCell, hc]

/-- Folding `elimCell` over columns avoiding `c` leaves column `c` alone. -/
theorem foldl_elimCell_ne_col (nv i : Nat) (tt : ℚ) (c : Nat) :
    ∀ (js : List Nat) (Y : Mat ℚ), (∀ j ∈ js, j ≠ c) →
      ∀ r, (js.foldl (elimCell nv i tt) Y) r c = Y r c := by
  intro js
  induction js with
  | nil => intro Y _ r; rfl
  | cons j js ih =>
      intro Y h r
      rw [List.foldl_cons, ih _ (fun x hx => h x (List.mem_cons_of_mem j hx)) r]
      exact elimCell_ne_col nv i tt Y j r c
        (fun hcj => h j (List.mem_cons_self j js) hcj.symm)

/-- Splitting the descending column list of the elimination loop
at an interior column `j`. -/
theorem elim_list_split (m j : Nat) (h1 : 1 ≤ j) (h2 : j ≤ m) :
    (List.range' 1 m).reverse =
      (List.range' (j + 1) (m - j)).reverse ++ j :: (List.range' 1 (j - 1)).reverse := by
  have e1 : List.range' 1 m = List.range' 1 (j - 1) ++ List.range' j (m + 1 - j) := by
    have h := List.range'_append_1 1 (j - 1) (m + 1 - j)
    rw [show 1 + (j - 1) = j by omega, show m + 1 - j + (j - 1) = m by omega] at h
    exact h.symm
  have e2 : List.range' j (m + 1 - j) = j :: List.range' (j + 1) (m - j) := by
    have h := List.range'_succ j (m - j) 1
    rw [show m + 1 - j = (m - j) + 1 by omega]
    exact h
  rw [e1, e2, List.reverse_append, List.reverse_cons, List.append_assoc,
    List.singleton_append]

/-- After a successful elimination of column `i` the pivot row is the old
(swapped) row divided by the pivot, on every column `1..nv+1`. -/
theorem elimCol_row_pivot (nv i : Nat) (tt : ℚ) (Y1 : Mat ℚ)
    (j : Nat) (hj1 : 1 ≤ j) (hj2 : j ≤ nv + 1) :
    elimCol nv i tt Y1 i j = Y1 i j / tt := by
  unfold elimCol
  rw [elim_list_split (nv + 1) j hj1 hj2, List.foldl_append, List.foldl_cons]
  have hA : ∀ r, (((List.range' (j + 1) (nv + 1 - j)).reverse).foldl
      (elimCell nv i tt) Y1) r j = Y1 r j := by
    intro r
    apply foldl_elimCell_ne_col
    intro x hx
    have hx2 := List.mem_range'_1.mp (List.mem_reverse.mp hx)
    omega
  have hB : elimCell nv i tt
      (((List.range' (j + 1) (nv + 1 - j)).reverse).foldl (elimCell nv i tt) Y1) j i j
      = Y1 i j / tt := by
    simp [elimCell, hA i]
  rw [foldl_elimCell_ne_col nv i tt j _ _ ?hrest i, hB]
  intro x hx
  have hx2 := List.mem_range'_1.mp (List.mem_reverse.mp hx)
  omega

/-- After a successful elimination of column `i`, the pivot column holds `1`
on the diagonal and `0` in every other solved row. -/
theorem elimCol_col_pivot (nv i : Nat) (tt : ℚ) (Y1 : Mat ℚ)
    (h1 : 1 ≤ i) (h2 : i ≤ nv) (hY : Y1 i i = tt) (htt : tt ≠ 0) :
    elimCol nv i tt Y1 i i = 1 ∧
    ∀ l, 1 ≤ l → l ≤ nv → l ≠ i → elimCol nv i tt Y1 l i = 0 := by
  have hii : elimCol nv i tt Y1 i i = 1 := by
    rw [elimCol_row_pivot nv i tt Y1 i h1 (by omega), hY]
    exact div_self htt
  refine ⟨hii, ?_⟩
  intro l hl1 hl2 hli
  unfold elimCol
  rw [elim_list_split (nv + 1) i h1 (by omega), List.foldl_append, List.foldl_cons]
  have hA : ∀ r, (((List.range' (i + 1) (nv + 1 - i)).reverse).foldl
      (elimCell nv i tt) Y1) r i = Y1 r i := by
    intro r
    apply foldl_elimCell_ne_col
    intro x hx
    have hx2 := List.mem_range'_1.mp (List.mem_reverse.mp hx)
    omega
  have hB : elimCell nv i tt
      (((List.range' (i + 1) (nv + 1 - i)).reverse).foldl (elimCell nv i tt) Y1) i l i
      = 0 := by
    simp [elimCell, hli, hl1, hl2, hA l, hA i, hY, div_self htt]
  rw [foldl_elimCell_ne_col nv i tt i _ _ ?hrest2 l, hB]
  intro x hx
  have hx2 := List.mem_range'_1.mp (List.mem_reverse.mp hx)
  omega

/-- C2 helper: the failure behaviour of one pivot step. -/
theorem gaussStep_error_iff (t : ℚ) (nv i : Nat) (Y : Mat ℚ) (a : Nat) (tt : ℚ)
    (hp : pivotSearch Y i nv = (a, tt)) :
    gaussStep t nv Y i = Except.error (t, tt) ↔ |tt| < TOLG := by
  unfold gaussStep
  rw [hp]
  by_cases h : |tt| < TOLG
  · simp [h]
  · simp [h]

/-- C2 helper: the success behaviour of one pivot step. -/
theorem gaussStep_ok (t : ℚ) (nv i : Nat) (Y : Mat ℚ) (a : Nat) (tt : ℚ)
    (hp : pivotSearch Y i nv = (a, tt)) (h : ¬ |tt| < TOLG) :
    gaussStep t nv Y i =
      Except.ok (elimCol nv i tt (if i = a then Y else swapRows nv Y i a)) := by
  unfold gaussStep
  rw [hp]
  simp [h]

/-! ## Claim C2: linear solver (pivot selection, singularity test, elimination) -/

/-- C2: for each pivot column `i ∈ [1, nv]` the solver selects as pivot the
entry of largest absolute value among rows `l ≥ i`; the step fails with the
diagnostic payload `(t, pivot)` iff `|pivot| < 10^-12`; otherwise the pivot
row is swapped into position `i`, normalized by the pivot, and column `i` is
eliminated from every other solved row. -/
theorem resolversistema_pivoting (t : ℚ) (nv i : Nat) (Y : Mat ℚ) (a : Nat) (tt : ℚ)
    (h1 : 1 ≤ i) (h2 : i ≤ nv) (hp : pivotSearch Y i nv = (a, tt)) :
    (i ≤ a ∧ a ≤ nv ∧ tt = Y a i ∧ ∀ l, i ≤ l → l ≤ nv → |Y l i| ≤ |tt|) ∧
    (gaussStep t nv Y i = Except.error (t, tt) ↔ |tt| < TOLG) ∧
    (∀ c, 1 ≤ c → c ≤ nv + 1 → (if i = a then Y else swapRows nv Y i a) i c = Y a c) ∧
    (TOLG ≤ |tt| →
      gaussStep t nv Y i =
        Except.ok (elimCol nv i tt (if i = a then Y else swapRows nv Y i a)) ∧
      (∀ j, 1 ≤ j → j ≤ nv + 1 →
        elimCol nv i tt (if i = a then Y else swapRows nv Y i a) i j =
          (if i = a then Y else swapRows nv Y i a) i j / tt) ∧
      elimCol nv i tt (if i = a then Y else swapRows nv Y i a) i i = 1 ∧
      (∀ l, 1 ≤ l → l ≤ nv → l ≠ i →
        elimCol nv i tt (if i = a then Y else swapRows nv Y i a) l i = 0)) := by
  have hspec := pivotSearch_spec Y i nv h2 a tt hp
  refine ⟨hspec, gaussStep_error_iff t nv i Y a tt hp,
    fun c hc1 hc2 => swap_target nv Y i a c hc1 hc2, ?_⟩
  intro hge
  have hnlt : ¬ |tt| < TOLG := not_lt.mpr hge
  have htt : tt ≠ 0 := by
    have hpos : (0 : ℚ) < TOLG := by norm_num [TOLG]
    intro h0
    rw [h0, abs_zero] at hge
    exact absurd (lt_of_lt_of_le hpos hge) (lt_irrefl 0)
  have hY1 : (if i = a then Y else swapRows nv Y i a) i i = tt := by
    rw [swap_target nv Y i a i h1 (by omega)]
    exact hspec.2.2.1.symm
  have hcol := elimCol_col_pivot nv i tt (if i = a then Y else swapRows nv Y i a)
    h1 h2 hY1 htt
  exact ⟨gaussStep_ok t nv i Y a tt hp hnlt,
    fun j hj1 hj2 => elimCol_row_pivot nv i tt _ j hj1 hj2, hcol.1, hcol.2⟩

/-- C2 witness: a concrete 1-unknown system with pivot `2` at column 1. -/
theorem resolversistema_pivoting_witness :
    (1 ≤ 1 ∧ (1 : Nat) ≤ 1 ∧
      pivotSearch (fun r c => if r = 1 ∧ c = 1 then (2 : ℚ)
        else if r = 1 ∧ c = 2 then 6 else 0) 1 1 = (1, 2)) ∧
    ((gaussStep 0 1 (fun r c => if r = 1 ∧ c = 1 then (2 : ℚ)
        else if r = 1 ∧ c = 2 then 6 else 0) 1 = Except.error (0, 2)) ↔
      |(2 : ℚ)| < TOLG) ∧
    ((2 : ℚ) = (fun r c => if r = 1 ∧ c = 1 then (2 : ℚ)
        else if r = 1 ∧ c = 2 then 6 else 0) 1 1) :=
  ⟨⟨le_refl 1, le_refl 1, by decide⟩,
    (resolversistema_pivoting 0 1 1
      (fun r c => if r = 1 ∧ c = 1 then (2 : ℚ) else if r = 1 ∧ c = 2 then 6 else 0)
      1 2 (le_refl 1) (le_refl 1) (by decide)).2.1,
    (resolversistema_pivoting 0 1 1
      (fun r c => if r = 1 ∧ c = 1 then (2 : ℚ) else if r = 1 ∧ c = 2 then 6 else 0)
      1 2 (le_refl 1) (le_refl 1) (by decide)).1.2.2.1⟩

/-- Ground helper: a row swap between rows in `[1, nv]` leaves row 0 alone. -/
theorem swapRows_row0 (nv : Nat) (Y : Mat ℚ) (i a : Nat)
    (hi : 1 ≤ i) (ha : 1 ≤ a) (c : Nat) :
    swapRows nv Y i a 0 c = Y 0 c := by
  have h0i : (0 : Nat) ≠ i := by omega
  have h0a : (0 : Nat) ≠ a := by omega
  simp [swapRows, h0i, h0a]

/-- Ground helper: the swap only touches columns `1..nv+1`, never column 0. -/
theorem swapRows_col0 (nv : Nat) (Y : Mat ℚ) (i a r : Nat) :
    swapRows nv Y i a r 0 = Y r 0 := by
  simp [swapRows]

/-- Ground helper: elimination rows run over `[1, nv]`, so row 0 is untouched. -/
theorem elimCell_row0 (nv i : Nat) (tt : ℚ) (Y : Mat ℚ) (j : Nat)
    (hi : 1 ≤ i) (c : Nat) :
    elimCell nv i tt Y j 0 c = Y 0 c := by
  have h0i : (0 : Nat) ≠ i := by omega
  simp [elimCell, h0i]

/-- Ground helper: elimination columns run over `[1, nv+1]`, never column 0. -/
theorem elimCell_col0 (nv i : Nat) (tt : ℚ) (Y : Mat ℚ) (j : Nat)
    (hj : 1 ≤ j) (r : Nat) :
    elimCell nv i tt Y j r 0 = Y r 0 := by
  have h0j : (0 : Nat) ≠ j := by omega
  simp [elimCell, h0j]

/-- Ground helper: a fold of eliminations preserves row 0. -/
theorem foldl_elimCell_row0 (nv i : Nat) (tt : ℚ) (hi : 1 ≤ i) :
    ∀ (js : List Nat) (Y : Mat ℚ) (c : Nat),
      (js.foldl (elimCell nv i tt) Y) 0 c = Y 0 c := by
  intro js
  induction js with
  | nil => intro Y c; rfl
  | cons j js ih =>
      intro Y c
      rw [List.foldl_cons, ih (elimCell nv i tt Y j) c, elimCell_row0 nv i tt Y j hi c]

/-- Ground helper: a fold of eliminations over columns `≥ 1` preserves column 0. -/
theorem foldl_elimCell_col0 (nv i : Nat) (tt : ℚ) :
    ∀ (js : List Nat) (Y : Mat ℚ), (∀ j ∈ js, 1 ≤ j) → ∀ r,
      (js.foldl (elimCell nv i tt) Y) r 0 = Y r 0 := by
  intro js
  induction js with
  | nil => intro Y _ r; rfl
  | cons j js ih =>
      intro Y h r
      rw [List.foldl_cons, ih (elimCell nv i tt Y j)
        (fun x hx => h x (List.mem_cons_of_mem j hx)) r,
        elimCell_col0 nv i tt Y j (h j (List.mem_cons_self j js)) r]

/-- Ground helper: a successful pivot step neither reads nor writes
row 0 or column 0. -/
theorem gaussStep_ground (t : ℚ) (nv i : Nat) (Y R : Mat ℚ)
    (h1 : 1 ≤ i) (h2 : i ≤ nv)
    (hok : gaussStep t nv Y i = Except.ok R) :
    (∀ c, R 0 c = Y 0 c) ∧ (∀ r, R r 0 = Y r 0) := by
  obtain ⟨a, tt, hp⟩ : ∃ a tt, pivotSearch Y i nv = (a, tt) := ⟨_, _, rfl⟩
  have hspec := pivotSearch_spec Y i nv h2 a tt hp
  have ha1 : 1 ≤ a := le_trans h1 hspec.1
  unfold gaussStep at hok
  rw [hp] at hok
  by_cases hlt : |tt| < TOLG
  · simp [hlt] at hok
  · simp only [hlt, if_false] at hok
    have hR : R = elimCol nv i tt (if i = a then Y else swapRows nv Y i a) :=
      (Except.ok.injEq _ _).mp hok.symm
    subst hR
    have hY1row : ∀ c, (if i = a then Y else swapRows nv Y i a) 0 c = Y 0 c := by
      intro c
      by_cases h : i = a
      · rw [if_pos h]
      · rw [if_neg h]
        exact swapRows_row0 nv Y i a h1 ha1 c
    have hY1col : ∀ r, (if i = a then Y else swapRows nv Y i a) r 0 = Y r 0 := by
      intro r
      by_cases h : i = a
      · rw [if_pos h]
      · rw [if_neg h]
        exact swapRows_col0 nv Y i a r
    constructor
    · intro c
      unfold elimCol
      rw [foldl_elimCell_row0 nv i tt h1 _ _ c, hY1row c]
    · intro r
      unfold elimCol
      rw [foldl_elimCell_col0 nv i tt _ _ ?hmem r, hY1col r]
      intro x hx
      have hx2 := List.mem_range'_1.mp (List.mem_reverse.mp hx)
      omega

/-- Unfolding equation for `solveCols` on a cons cell. -/
theorem solveCols_cons (t : ℚ) (nv i : Nat) (is : List Nat) (Y : Mat ℚ) :
    solveCols t nv (i :: is) Y =
      match gaussStep t nv Y i with
      | Except.error e => Except.error e
      | Except.ok Y2 => solveCols t nv is Y2 := rfl

/-- Ground helper: the whole column sweep preserves row 0 and column 0 when
it succeeds. -/
theorem solveCols_ground (t : ℚ) (nv : Nat) :
    ∀ (js : List Nat) (Y R : Mat ℚ),
      (∀ i ∈ js, 1 ≤ i ∧ i ≤ nv) → solveCols t nv js Y = Except.ok R →
      (∀ c, R 0 c = Y 0 c) ∧ (∀ r, R r 0 = Y r 0) := by
  intro js
  induction js with
  | nil =>
      intro Y R _ hok
      have hYR : Y = R := (Except.ok.injEq _ _).mp hok
      subst hYR
      exact ⟨fun c => rfl, fun r => rfl⟩
  | cons i js ih =>
      intro Y R h hok
      rcases hg : gaussStep t nv Y i with e | Y2
      · rw [solveCols_cons, hg] at hok
        cases hok
      · rw [solveCols_cons, hg] at hok
        have hi := h i (List.mem_cons_self i js)
        have hstep := gaussStep_ground t nv i Y Y2 hi.1 hi.2 hg
        have hrest := ih Y2 R (fun x hx => h x (List.mem_cons_of_mem i hx)) hok
        exact ⟨fun c => (hrest.1 c).trans (hstep.1 c),
          fun r => (hrest.2 r).trans (hstep.2 r)⟩

/-! ## Claim C9: ground (index 0) is excluded from the solved subsystem -/

/-- C9: stamps targeting node 0 write into row 0 of the working matrix; the
solve only touches rows/columns `1..nv+1`, so row 0 and column 0 pass
through `resolversistema` unchanged; and the solution-vector updates
(solution copy, restart randomization, step acceptance) only write indices
`1..nv`, so the ground entry stays 0. -/
theorem ground_isolated (t w gg : ℚ) (nv b2 c2 d2 : Nat) (Y : Mat ℚ)
    (en et rnd : Nat → ℚ)
    (hb : b2 ≠ 0) (hcd : c2 ≠ d2) :
    (fonte nv Y 0 b2 w) 0 (nv + 1) = Y 0 (nv + 1) - w ∧
    (transcondutancia Y 0 b2 c2 d2 gg) 0 c2 = Y 0 c2 + gg ∧
    (∀ c, exceptGet (resolversistema t nv Y) Y 0 c = Y 0 c) ∧
    (∀ r, exceptGet (resolversistema t nv Y) Y r 0 = Y r 0) ∧
    (en 0 = 0 → newtonUpdate nv Y en 0 = 0) ∧
    (en 0 = 0 → randomize nv rnd en 0 = 0) ∧
    (et 0 = 0 → etAccept nv en et 0 = 0) := by
  have h0b : (0 : Nat) ≠ b2 := fun h => hb h.symm
  refine ⟨?_, ?_, ?_, ?_, ?_, ?_, ?_⟩
  · simp [fonte, addAt, h0b, sub_eq_add_neg]
  · simp [transcondutancia, addAt, h0b, hcd]
  · intro c
    rcases hres : resolversistema t nv Y with e | R
    · rfl
    · have hmem : ∀ i ∈ List.range' 1 nv, 1 ≤ i ∧ i ≤ nv := by
        intro i hi
        have := List.mem_range'_1.mp hi
        omega
      exact (solveCols_ground t nv (List.range' 1 nv) Y R hmem hres).1 c
  · intro r
    rcases hres : resolversistema t nv Y with e | R
    · rfl
    · have hmem : ∀ i ∈ List.range' 1 nv, 1 ≤ i ∧ i ≤ nv := by
        intro i hi
        have := List.mem_range'_1.mp hi
        omega
      exact (solveCols_ground t nv (List.range' 1 nv) Y R hmem hres).2 r
  · intro h
    simpa [newtonUpdate] using h
  · intro h
    simpa [randomize] using h
  · intro h
    simpa [etAccept] using h

/-- C9 witness: a concrete solvable 1-unknown system with stamps from
node 0 to node 1 and the zero solution vectors. -/
theorem ground_isolated_witness :
    ((fonte 1 (fun r c => if r = 1 ∧ c = 1 then (2 : ℚ)
        else if r = 1 ∧ c = 2 then 6 else 0) 0 1 3) 0 2 =
      (fun r c => if r = 1 ∧ c = 1 then (2 : ℚ)
        else if r = 1 ∧ c = 2 then 6 else 0) 0 2 - 3) ∧
    ((transcondutancia (fun r c => if r = 1 ∧ c = 1 then (2 : ℚ)
        else if r = 1 ∧ c = 2 then 6 else 0) 0 1 1 2 4) 0 1 =
      (fun r c => if r = 1 ∧ c = 1 then (2 : ℚ)
        else if r = 1 ∧ c = 2 then 6 else 0) 0 1 + 4) ∧
    (∀ c, exceptGet (resolversistema 0 1 (fun r c => if r = 1 ∧ c = 1 then (2 : ℚ)
        else if r = 1 ∧ c = 2 then 6 else 0))
      (fun r c => if r = 1 ∧ c = 1 then (2 : ℚ) else if r = 1 ∧ c = 2 then 6 else 0)
      0 c =
      (fun r c => if r = 1 ∧ c = 1 then (2 : ℚ) else if r = 1 ∧ c = 2 then 6 else 0)
      0 c) ∧
    (∀ r, exceptGet (resolversistema 0 1 (fun r c => if r = 1 ∧ c = 1 then (2 : ℚ)
        else if r = 1 ∧ c = 2 then 6 else 0))
      (fun r c => if r = 1 ∧ c = 1 then (2 : ℚ) else if r = 1 ∧ c = 2 then 6 else 0)
      r 0 =
      (fun r c => if r = 1 ∧ c = 1 then (2 : ℚ) else if r = 1 ∧ c = 2 then 6 else 0)
      r 0) ∧
    ((fun _ : Nat => (0 : ℚ)) 0 = 0 →
      newtonUpdate 1 (fun r c => if r = 1 ∧ c = 1 then (2 : ℚ)
        else if r = 1 ∧ c = 2 then 6 else 0) (fun _ => 0) 0 = 0) ∧
    ((fun _ : Nat => (0 : ℚ)) 0 = 0 →
      randomize 1 (fun _ => 0) (fun _ => 0) 0 = 0) ∧
    ((fun _ : Nat => (0 : ℚ)) 0 = 0 →
      etAccept 1 (fun _ => 0) (fun _ => 0) 0 = 0) :=
  ground_isolated 0 3 4 1 1 1 2
    (fun r c => if r = 1 ∧ c = 1 then (2 : ℚ) else if r = 1 ∧ c = 2 then 6 else 0)
    (fun _ => 0) (fun _ => 0) (fun _ => 0) (by decide) (by decide)
